import Mathlib

/-!
Verification of the `grammers` transport-framing layer and its crypto helpers.

Shallow embedding conventions:
* Rust byte slices (`&[u8]`, `[u8; N]`) become `List Nat`, every element `< 256`
  where it matters (stated as hypotheses).
* Rust `i32` payloads become `Int` (the signed reinterpretation of a 32-bit
  little-endian word is made explicit by `asI32`); `u32` payloads become `Nat`
  reduced modulo `2 ^ 32`.
* Fallible or panicking code returns `Option` (`none` models a panic) and
  transport unpacking returns `Except Error UnpackedOffset` as in the source.
* External cryptographic primitives (SHA1, CRC32) are uninterpreted: they are
  passed as explicit function parameters. SHA1 returns a 20-byte digest by its
  Rust type `[u8; 20]`, which appears as a length hypothesis.
-/

set_option maxRecDepth 10000

namespace Grammers

/-- Byte read with default 0; models in-bounds slice indexing (all uses are
guarded by explicit length checks, mirroring the source's bounds). -/
def byteAt (l : List Nat) (i : Nat) : Nat := l.getD i 0

/-! ## Hexadecimal conversion, from `grammers-crypto/src/hex.rs`. -/

/-- Lowercase hexadecimal digit character for a nibble value `n < 16`:
`0`-`9` then `a`-`f`. -/
def hexDigitChar (n : Nat) : Char :=
  if n < 10 then Char.ofNat (48 + n) else Char.ofNat (87 + n)

/-- `to_hex`: each byte is written with Rust's `write!("{b:02x}")`, i.e. two
lowercase hex digits (bytes are `< 256`, so exactly two digits, zero padded). -/
def to_hex (bytes : List Nat) : String :=
  String.mk (bytes.foldr (fun b acc => hexDigitChar (b / 16) :: hexDigitChar (b % 16) :: acc) [])

/-- The ASCII byte view of a string (`s.as_bytes()` in Rust); faithful for the
ASCII-only strings produced by `to_hex`. -/
def strBytes (s : String) : List Nat := s.data.map Char.toNat

/-- The inner `const fn nibble` of `into_bytes`: decodes one ASCII hex digit
byte; `none` models the `panic!("invalid hex data")` arm. -/
def nibble (c : Nat) : Option Nat :=
  if 48 ≤ c ∧ c ≤ 57 then some (c - 48)
  else if 97 ≤ c ∧ c ≤ 102 then some (c - 97 + 10)
  else if 65 ≤ c ∧ c ≤ 70 then some (c - 65 + 10)
  else none

/-- One iteration of the `while i < arr.len() / 2` loop of `into_bytes`. The
source line is `arr[i] = nibble(s.as_bytes()[i * 2]) << 4 + nibble(s.as_bytes()[i * 2 + 1]);`
where, by Rust operator precedence, `+` binds tighter than `<<`, so the shift
amount is `4 + nibble(lo)`. `none` models the panics: index out of bounds,
invalid hex digit, and `u8` shift overflow (shift amount `≥ 8`, a const-eval
error in Rust); value bits shifted out of a `u8` are discarded (`% 256`). -/
def intoBytesStep (s : List Nat) (arr : List Nat) (i : Nat) : Option (List Nat) :=
  if s.length ≤ i * 2 + 1 then none
  else do
    let nh ← nibble (byteAt s (i * 2))
    let nl ← nibble (byteAt s (i * 2 + 1))
    if 8 ≤ 4 + nl then none
    else some (arr.set i ((nh <<< (4 + nl)) % 256))

/-- `into_bytes::<N>`: panics (`none`) on odd string length, then runs the loop
for `i < arr.len() / 2` (note: `arr.len() / 2 = N / 2`, not `N`) over
`arr = [0; N]`. -/
def into_bytes (N : Nat) (s : List Nat) : Option (List Nat) :=
  if s.length % 2 ≠ 0 then none
  else (List.range (N / 2)).foldlM (intoBytesStep s) (List.replicate N 0)

/-! ## Transport error type, from `grammers-mtproto/src/transport/error.rs`.

The Rust enum `Error` has five variants; `i32` fields are modelled as `Int`,
`u32` fields as `Nat`. -/

/-- The transport error enum from `error.rs`: `MissingBytes`, `BadLen(i32)`,
`BadSeq { expected: i32, received: i32 }`, `BadCrc { computed: u32,
received: u32 }`, `Status(i32)`. -/
inductive Error where
  | MissingBytes : Error
  | BadLen : Int → Error
  | BadSeq : Int → Int → Error
  | BadCrc : Nat → Nat → Error
  | Status : Int → Error
deriving DecidableEq, Repr

/-- Lowercase hexadecimal digit for a nibble value. -/
def hexChar (n : Nat) : Char :=
  if n < 10 then Char.ofNat (48 + n) else Char.ofNat (87 + n)

/-- Rust's `{:08x}` formatting of a `u32` value: eight lowercase hex digits,
zero padded. -/
def u32hex8 (n : Nat) : String :=
  String.mk ((List.range 8).reverse.map (fun i => hexChar (n / 16 ^ i % 16)))

/-- The body written by the `match` inside `impl fmt::Display for Error`;
`none` models the `todo!("being removed")` panic on `MissingBytes`. -/
def displayRest : Error → Option String
  | .MissingBytes => none
  | .BadLen len => some ("bad len: " ++ toString len)
  | .BadSeq expected received =>
      some ("bad seq: expected " ++ toString expected ++ ", received " ++ toString received)
  | .BadCrc computed received =>
      some ("bad crc: computed " ++ u32hex8 computed ++ ", received " ++ u32hex8 received)
  | .Status status => some ("status code (negative len): " ++ toString status)

/-- `impl fmt::Display for Error`: writes `"transport error: "` first, then the
variant-specific text; formatting `MissingBytes` panics (`none`). -/
def display (e : Error) : Option String :=
  (displayRest e).map (fun t => "transport error: " ++ t)

/-- Projection observing the payload of the `Status` variant. -/
def statusPayload : Error → Option Int
  | .Status n => some n
  | _ => none

/-! ## Authorization key, from `grammers-crypto/src/auth_key.rs`.

`data : [u8; 256]`, `aux_hash : [u8; 8]`, `id : [u8; 8]` become `List Nat`
fields; the fixed lengths appear as hypotheses where they matter. -/

/-- Telegram's authorization key: the 256-byte secret plus the two 8-byte
values derived from its SHA1 digest at construction. -/
structure AuthKey where
  data : List Nat
  aux_hash : List Nat
  id : List Nat
deriving DecidableEq, Repr

/-- `impl PartialEq for AuthKey`: `self.id == other.id`; the raw `data` and
`aux_hash` fields are not consulted. -/
def AuthKey.eq (a b : AuthKey) : Bool := a.id == b.id

/-- `AuthKey::from_bytes`: computes `sha1(&data)` (external, `[u8; 20]` by its
Rust type, passed here uninterpreted) and stores `aux_hash = sha1[0..8]`,
`id = sha1[12..12 + 8]` alongside the unchanged `data`. -/
def AuthKey.from_bytes (sha1 : List Nat → List Nat) (data : List Nat) : AuthKey :=
  let s := sha1 data
  { data := data, aux_hash := s.take 8, id := (s.drop 12).take 8 }

/-- `AuthKey::as_bytes`: a view of the underlying 256-byte data. -/
def AuthKey.as_bytes (k : AuthKey) : List Nat := k.data

/-- `AuthKey::into_bytes`: consumes the key, returning the underlying data. -/
def AuthKey.into_bytes (k : AuthKey) : List Nat := k.data

/-- `AuthKey::id`: accessor returning the stored `id` field. -/
def AuthKey.id_value (k : AuthKey) : List Nat := k.id

/-- `slice[off..off + src.length].copy_from_slice(src)` on a list: overwrite
`src.length` entries starting at `off`. -/
def setSlice (l : List Nat) (off : Nat) (src : List Nat) : List Nat :=
  l.take off ++ src ++ l.drop (off + src.length)

/-- `AuthKey::calc_new_nonce_hash`: fills a 41-byte buffer with
`buffer[..32] = new_nonce`, `buffer[32] = number`, `buffer[33..] = aux_hash`,
then returns `sha1(buffer)[4..]` converted into a `[u8; 16]`; `none` models the
`try_into().unwrap()` panic when the slice is not 16 bytes. -/
def AuthKey.calc_new_nonce_hash (sha1 : List Nat → List Nat) (k : AuthKey)
    (new_nonce : List Nat) (number : Nat) : Option (List Nat) :=
  let b1 := setSlice (List.replicate 41 0) 0 new_nonce
  let b2 := b1.set 32 number
  let b3 := setSlice b2 33 k.aux_hash
  let res := (sha1 b3).drop 4
  if res.length = 16 then some res else none

/-! ## MTProto transports.

`transport/mod.rs` declares `UnpackedOffset` and the `Transport` trait; the
transport implementations (`abridged.rs`, `intermediate.rs`, `full.rs`,
`obfuscated.rs`) are part of this repository but outside the sources at hand,
so they are modelled from the spec, sections 4.2 to 4.5. CRC32 is an external
primitive and stays uninterpreted (a function parameter, reduced mod `2 ^ 32`
as its Rust type `u32` dictates). -/

/-- Result of a successful `Transport::unpack`, from `transport/mod.rs`; the
`data_range : Range<usize>` field is split into its two endpoints. -/
structure UnpackedOffset where
  data_start : Nat
  data_end : Nat
  next_offset : Nat
deriving DecidableEq, Repr

/-- Little-endian 3-byte encoding of a value, low byte first. -/
def le3 (n : Nat) : List Nat := [n % 256, n / 256 % 256, n / 65536 % 256]

/-- Little-endian 4-byte encoding of a value, low byte first. -/
def le4 (n : Nat) : List Nat :=
  [n % 256, n / 256 % 256, n / 65536 % 256, n / 16777216 % 256]

/-- Little-endian read of three bytes starting at `off`. -/
def rd3At (l : List Nat) (off : Nat) : Nat :=
  byteAt l off + 256 * byteAt l (off + 1) + 65536 * byteAt l (off + 2)

/-- Little-endian read of four bytes starting at `off`. -/
def rd4At (l : List Nat) (off : Nat) : Nat :=
  byteAt l off + 256 * byteAt l (off + 1) + 65536 * byteAt l (off + 2) +
    16777216 * byteAt l (off + 3)

/-- Signed (`i32`) reinterpretation of a 32-bit word. -/
def asI32 (n : Nat) : Int := if n < 2 ^ 31 then (n : Int) else (n : Int) - 2 ^ 32

/-- The half-open byte slice `[a, b)` of a list. -/
def extract (l : List Nat) (a b : Nat) : List Nat := (l.drop a).take (b - a)

/-- Modelled from the spec: `abridged.rs` is not among the sources. Pack,
spec 4.2 with the 4.1 contract: a payload length not divisible by 4 halts
execution (`none`); `length/4` is encoded as a single byte when `< 127`,
otherwise as the sentinel byte `0x7f` followed by its 3-byte little-endian
encoding; the header is prepended to the payload. -/
def Abridged.pack (buffer : List Nat) : Option (List Nat) :=
  if buffer.length % 4 ≠ 0 then none
  else if buffer.length / 4 < 127 then some (buffer.length / 4 :: buffer)
  else some (127 :: (le3 (buffer.length / 4) ++ buffer))

/-- Modelled from the spec: `abridged.rs` is not among the sources. Unpack,
spec 4.2: read the first byte (`MissingBytes` when none is buffered); a byte
`< 0x7f` means payload length `byte * 4` after a 1-byte header; `0x7f` means
the next three bytes hold `length/4` little-endian after a 4-byte header
(`MissingBytes` when fewer than 4 bytes are buffered); a frame extending past
the buffered bytes yields `MissingBytes`. -/
def Abridged.unpack (buffer : List Nat) : Except Error UnpackedOffset :=
  if buffer.length < 1 then .error .MissingBytes
  else if byteAt buffer 0 < 127 then
    let len := byteAt buffer 0 * 4
    if buffer.length < 1 + len then .error .MissingBytes
    else .ok ⟨1, 1 + len, 1 + len⟩
  else
    if buffer.length < 4 then .error .MissingBytes
    else
      let len := rd3At buffer 1 * 4
      if buffer.length < 4 + len then .error .MissingBytes
      else .ok ⟨4, 4 + len, 4 + len⟩

/-- Modelled from the spec: `intermediate.rs` is not among the sources. Pack,
spec 4.3 with the 4.1 contract: prepend the payload length as a 4-byte
little-endian word. -/
def Intermediate.pack (buffer : List Nat) : Option (List Nat) :=
  if buffer.length % 4 ≠ 0 then none
  else some (le4 buffer.length ++ buffer)

/-- Modelled from the spec: `intermediate.rs` is not among the sources. Unpack,
spec 4.3: require at least 4 buffered bytes (else `MissingBytes`); a length
negative as `i32` yields `Status(length)`; fewer than `4 + length` buffered
bytes yield `MissingBytes`; otherwise the data range is `[4, 4 + length)` with
next offset `4 + length`. -/
def Intermediate.unpack (buffer : List Nat) : Except Error UnpackedOffset :=
  if buffer.length < 4 then .error .MissingBytes
  else
    let lenU := rd4At buffer 0
    if asI32 lenU < 0 then .error (.Status (asI32 lenU))
    else if buffer.length < 4 + lenU then .error .MissingBytes
    else .ok ⟨4, 4 + lenU, 4 + lenU⟩

/-- Modelled from the spec: `full.rs` is not among the sources. Pack, spec 4.4
with the 4.1 contract: total length `L = 4 + 4 + payload + 4`; write `L`, the
current send-sequence counter, the payload, then CRC32 (uninterpreted, `u32`)
over the three preceding fields; the counter advances by 1. -/
def Full.pack (crc : List Nat → Nat) (send_seq : Nat) (buffer : List Nat) :
    Option (List Nat × Nat) :=
  if buffer.length % 4 ≠ 0 then none
  else
    let len := buffer.length + 12
    let body := le4 len ++ le4 (send_seq % 2 ^ 32) ++ buffer
    some (body ++ le4 (crc body % 2 ^ 32), send_seq + 1)

/-- Modelled from the spec: `full.rs` is not among the sources. Unpack,
spec 4.4: require 4 bytes for `L` (else `MissingBytes`); `L < 12` as `i32`
yields `BadLen(L)`; fewer than `L` buffered bytes yield `MissingBytes`; a
sequence number different from the expected receive counter yields `BadSeq`;
a CRC32 mismatch over bytes `[0, L - 4)` yields `BadCrc`; otherwise the data
range is `[8, L - 4)`, the next offset `L`, and the counter advances by 1. -/
def Full.unpack (crc : List Nat → Nat) (recv_seq : Nat) (buffer : List Nat) :
    Except Error (UnpackedOffset × Nat) :=
  if buffer.length < 4 then .error .MissingBytes
  else
    let lenU := rd4At buffer 0
    if asI32 lenU < 12 then .error (.BadLen (asI32 lenU))
    else if buffer.length < lenU then .error .MissingBytes
    else
      let seqU := rd4At buffer 4
      if seqU ≠ recv_seq % 2 ^ 32 then
        .error (.BadSeq (asI32 (recv_seq % 2 ^ 32)) (asI32 seqU))
      else
        let computed := crc (buffer.take (lenU - 4)) % 2 ^ 32
        let received := rd4At buffer (lenU - 4)
        if computed ≠ received then .error (.BadCrc computed received)
        else .ok (⟨8, lenU - 4, lenU⟩, recv_seq + 1)

/-- Modelled from the spec: `obfuscated.rs` is not among the sources. Unpack,
spec 4.5: decrypt the buffered bytes with the decryption keystream (an
arbitrary length-preserving in-place transformation, abstracted as a function),
then delegate to the wrapped transport's unpack. -/
def Obfuscated.unpack (decrypt : List Nat → List Nat)
    (inner : List Nat → Except Error UnpackedOffset) (buffer : List Nat) :
    Except Error UnpackedOffset :=
  inner (decrypt buffer)

/-- The invariant claimed for every successful unpack: `data_range.start ≥ 0`,
`data_range.end ≤ next_offset`, and `next_offset ≤` the buffer length at the
time of the call. -/
def offsetInv (off : UnpackedOffset) (len : Nat) : Prop :=
  0 ≤ off.data_start ∧ off.data_end ≤ off.next_offset ∧ off.next_offset ≤ len

/-- Pack-then-unpack round trip: packing `x` succeeds, unpacking the packed
buffer succeeds, the reported data range slices out exactly `x`, and the next
offset consumes exactly the packed frame length. -/
def roundtripOk (pk : List Nat → Option (List Nat))
    (upk : List Nat → Except Error UnpackedOffset) (x : List Nat) : Prop :=
  ∃ buf off, pk x = some buf ∧ upk buf = .ok off ∧
    extract buf off.data_start off.data_end = x ∧ off.next_offset = buf.length

end Grammers

namespace Grammers

/-- C5: the transport error type is a closed set of exactly five variants:
`MissingBytes` with no data, `BadLen` with one signed 32-bit length, `BadSeq`
with expected and received signed values, `BadCrc` with computed and received
unsigned values, and `Status` with one signed length; every `Error` value is
exactly one of these. -/
theorem error_is_closed_five_variant_set (e : Error) :
    e = Error.MissingBytes ∨
    (∃ n : Int, e = Error.BadLen n) ∨
    (∃ expected received : Int, e = Error.BadSeq expected received) ∨
    (∃ computed received : Nat, e = Error.BadCrc computed received) ∨
    (∃ n : Int, e = Error.Status n) := by
  cases e with
  | MissingBytes => exact Or.inl rfl
  | BadLen n => exact Or.inr (Or.inl ⟨n, rfl⟩)
  | BadSeq a b => exact Or.inr (Or.inr (Or.inl ⟨a, b, rfl⟩))
  | BadCrc a b => exact Or.inr (Or.inr (Or.inr (Or.inl ⟨a, b, rfl⟩)))
  | Status n => exact Or.inr (Or.inr (Or.inr (Or.inr ⟨n, rfl⟩)))

/-- C4: formatting `Error::MissingBytes` does not return a string normally (its
branch is an unimplemented `todo!` halting execution, modelled by `none`), while
each of the other four variants formats to `some` string beginning with
`"transport error: "`. -/
theorem display_missing_bytes_unfinished :
    display Error.MissingBytes = none ∧
    (∀ n : Int, ∃ t, display (Error.BadLen n) = some ("transport error: " ++ t)) ∧
    (∀ expected received : Int,
      ∃ t, display (Error.BadSeq expected received) = some ("transport error: " ++ t)) ∧
    (∀ computed received : Nat,
      ∃ t, display (Error.BadCrc computed received) = some ("transport error: " ++ t)) ∧
    (∀ n : Int, ∃ t, display (Error.Status n) = some ("transport error: " ++ t)) := by
  refine ⟨rfl, fun n => ⟨_, rfl⟩, fun a b => ⟨_, rfl⟩, fun a b => ⟨_, rfl⟩, fun n => ⟨_, rfl⟩⟩

/-- C6: `Error.Status n` carries `n` unchanged, and its display output is
exactly `"transport error: status code (negative len): "` followed by the
decimal rendering of `n`. -/
theorem status_carries_raw_value_and_displays_it (n : Int) :
    statusPayload (Error.Status n) = some n ∧
    display (Error.Status n) =
      some ("transport error: status code (negative len): " ++ toString n) := by
  refine ⟨rfl, ?_⟩
  show some ("transport error: " ++ ("status code (negative len): " ++ toString n)) = _
  have h : ("transport error: " ++ "status code (negative len): " : String) =
      "transport error: status code (negative len): " := by decide
  rw [← String.append_assoc, h]

/-- C1: the hex round trip fails on the code as written. `to_hex [0xab] = "ab"`
but `into_bytes::<1>` on `"ab"` returns `[0x00]` (the loop bound `arr.len() / 2`
leaves `arr[0]` unwritten for `N = 1`), and `to_hex [0x12, 0x34] = "1234"` but
`into_bytes::<2>` returns `[0x40, 0x00]` (precedence: `nibble(hi) << (4 + nibble(lo))`
computes `1 <<< 6 = 64`, and `arr[1]` is never written), not `[0x12, 0x34]`. -/
theorem hex_roundtrip_fails_on_concrete_input :
    to_hex [171] = "ab" ∧
    into_bytes 1 (strBytes (to_hex [171])) = some [0] ∧
    to_hex [18, 52] = "1234" ∧
    into_bytes 2 (strBytes (to_hex [18, 52])) = some [64, 0] := by
  refine ⟨by decide, by decide, by decide, by decide⟩

/-- C2: `AuthKey.from_bytes` stores `aux_hash` equal to bytes `0..8` of the
SHA1 digest of `data` and `id` equal to bytes `12..20` (eight bytes each, the
digest being 20 bytes by SHA1's type), and the `id` accessor returns the stored
`id`. SHA1 is an uninterpreted external function; the single `let`-binding of
`sha1 data` in the definition mirrors the single hash computation at
construction. -/
theorem from_bytes_derives_aux_hash_and_id (sha1 : List Nat → List Nat)
    (data : List Nat) (hdata : data.length = 256) (hsha : (sha1 data).length = 20) :
    (AuthKey.from_bytes sha1 data).aux_hash = (sha1 data).take 8 ∧
    (AuthKey.from_bytes sha1 data).id = ((sha1 data).drop 12).take 8 ∧
    (AuthKey.from_bytes sha1 data).aux_hash.length = 8 ∧
    (AuthKey.from_bytes sha1 data).id.length = 8 ∧
    (AuthKey.from_bytes sha1 data).id_value = ((sha1 data).drop 12).take 8 := by
  refine ⟨rfl, rfl, ?_, ?_, rfl⟩ <;> simp [AuthKey.from_bytes, hsha]

theorem from_bytes_derives_aux_hash_and_id_witness :
    (AuthKey.from_bytes (fun _ => List.range 20) (List.replicate 256 0)).aux_hash =
      [0, 1, 2, 3, 4, 5, 6, 7] ∧
    (AuthKey.from_bytes (fun _ => List.range 20) (List.replicate 256 0)).id =
      [12, 13, 14, 15, 16, 17, 18, 19] := by
  have h := from_bytes_derives_aux_hash_and_id (fun _ => List.range 20)
    (List.replicate 256 0) (by simp) (by simp)
  exact ⟨h.1.trans (by decide), h.2.1.trans (by decide)⟩

/-- C3: `AuthKey` equality holds if and only if the `id` fields are equal; the
raw 256-byte `data` (and `aux_hash`) never influence equality. -/
theorem auth_key_eq_iff_id_eq (a b : AuthKey) :
    AuthKey.eq a b = true ↔ a.id = b.id := by
  simp [AuthKey.eq]

/-- C8: `AuthKey.from_bytes` stores `data` unchanged: both `as_bytes` and
`into_bytes` on the constructed key return exactly `data`. -/
theorem from_bytes_preserves_data (sha1 : List Nat → List Nat) (data : List Nat)
    (hdata : data.length = 256) :
    (AuthKey.from_bytes sha1 data).as_bytes = data ∧
    (AuthKey.from_bytes sha1 data).into_bytes = data :=
  ⟨rfl, rfl⟩

theorem from_bytes_preserves_data_witness :
    (AuthKey.from_bytes (fun _ => List.range 20) (List.replicate 256 3)).as_bytes =
      List.replicate 256 3 ∧
    (AuthKey.from_bytes (fun _ => List.range 20) (List.replicate 256 3)).into_bytes =
      List.replicate 256 3 :=
  from_bytes_preserves_data (fun _ => List.range 20) (List.replicate 256 3) (by simp)

/-- C7: `calc_new_nonce_hash` returns bytes `4..20` of SHA1 (uninterpreted)
applied to the 41-byte concatenation of the 32-byte `new_nonce`, the single
byte `number`, and the key's 8-byte `aux_hash`, in that order. -/
theorem calc_new_nonce_hash_is_sha1_slice (sha1 : List Nat → List Nat)
    (k : AuthKey) (new_nonce : List Nat) (number : Nat)
    (hn : new_nonce.length = 32) (ha : k.aux_hash.length = 8)
    (hs : (sha1 (new_nonce ++ [number] ++ k.aux_hash)).length = 20) :
    AuthKey.calc_new_nonce_hash sha1 k new_nonce number =
      some ((sha1 (new_nonce ++ [number] ++ k.aux_hash)).drop 4) := by
  have e1 : setSlice (List.replicate 41 0) 0 new_nonce = new_nonce ++ List.replicate 9 0 := by
    simp [setSlice, hn]
  have e2 : (new_nonce ++ List.replicate 9 0).set 32 number
      = new_nonce ++ number :: List.replicate 8 0 := by
    rw [List.set_append_right 32 number (by omega), hn]
    norm_num [List.replicate_succ]
  have e3 : setSlice (new_nonce ++ number :: List.replicate 8 0) 33 k.aux_hash
      = new_nonce ++ [number] ++ k.aux_hash := by
    have hlen : (new_nonce ++ number :: List.replicate 8 0).length ≤ 33 + k.aux_hash.length := by
      simp
      omega
    have h33 : (33 : Nat) = new_nonce.length + 1 := by omega
    rw [setSlice, List.drop_eq_nil_of_le hlen, h33, List.take_append]
    simp
  simp only [AuthKey.calc_new_nonce_hash]
  rw [e1, e2, e3]
  have hs2 : (sha1 (new_nonce ++ number :: k.aux_hash)).length = 20 := by
    simpa using hs
  simp [hs2]

theorem calc_new_nonce_hash_is_sha1_slice_witness :
    AuthKey.calc_new_nonce_hash (fun _ => List.range 20)
      ⟨[], List.replicate 8 5, []⟩ (List.replicate 32 1) 7 =
      some [4, 5, 6, 7, 8, 9, 10, 11, 12, 13, 14, 15, 16, 17, 18, 19] := by
  have h := calc_new_nonce_hash_is_sha1_slice (fun _ => List.range 20)
    ⟨[], List.replicate 8 5, []⟩ (List.replicate 32 1) 7 (by simp) (by simp) (by simp)
  exact h.trans (by decide)

theorem byteAt_append_right (l1 l2 : List Nat) (i : Nat) :
    byteAt (l1 ++ l2) (l1.length + i) = byteAt l2 i := by
  induction l1 with
  | nil => simp [byteAt]
  | cons a t ih =>
    have e : t.length + 1 + i = t.length + i + 1 := by omega
    simp only [List.cons_append, List.length_cons, e, byteAt, List.getD_cons_succ]
    exact ih

theorem byteAt_append_shift (l1 l2 : List Nat) (i j : Nat) (h : i = l1.length + j) :
    byteAt (l1 ++ l2) i = byteAt l2 j := by
  subst h
  exact byteAt_append_right l1 l2 j

theorem rd4At_append (l1 l2 : List Nat) (i : Nat) :
    rd4At (l1 ++ l2) (l1.length + i) = rd4At l2 i := by
  unfold rd4At
  rw [byteAt_append_shift l1 l2 _ i rfl,
    byteAt_append_shift l1 l2 _ (i + 1) (by omega),
    byteAt_append_shift l1 l2 _ (i + 2) (by omega),
    byteAt_append_shift l1 l2 _ (i + 3) (by omega)]

theorem rd4At_le4_append (n : Nat) (rest : List Nat) (hn : n < 2 ^ 32) :
    rd4At (le4 n ++ rest) 0 = n := by
  show n % 256 + 256 * (n / 256 % 256) + 65536 * (n / 65536 % 256) +
    16777216 * (n / 16777216 % 256) = n
  omega

theorem rd4At_after_le4 (m n : Nat) (rest : List Nat) (hn : n < 2 ^ 32) :
    rd4At (le4 m ++ (le4 n ++ rest)) 4 = n := by
  show n % 256 + 256 * (n / 256 % 256) + 65536 * (n / 65536 % 256) +
    16777216 * (n / 16777216 % 256) = n
  omega

theorem rd4At_le4_self (n : Nat) (hn : n < 2 ^ 32) : rd4At (le4 n) 0 = n := by
  show n % 256 + 256 * (n / 256 % 256) + 65536 * (n / 65536 % 256) +
    16777216 * (n / 16777216 % 256) = n
  omega

theorem rd3At_cons_le3 (b n : Nat) (rest : List Nat) (hn : n < 2 ^ 24) :
    rd3At (b :: (le3 n ++ rest)) 1 = n := by
  show n % 256 + 256 * (n / 256 % 256) + 65536 * (n / 65536 % 256) = n
  omega

theorem asI32_nonneg (n : Nat) (h : n < 2 ^ 31) : asI32 n = (n : Int) := by
  simp only [asI32, if_pos h]

/-- C9: every successful unpack of any transport satisfies
`data_range.start ≥ 0`, `data_range.end ≤ next_offset`, and
`next_offset ≤ buffer length at the time of the call`; the obfuscated wrapper
inherits the invariant from any wrapped transport satisfying it, for any
length-preserving keystream decryption. -/
theorem unpack_offset_invariant (buffer : List Nat) :
    (∀ off, Abridged.unpack buffer = .ok off → offsetInv off buffer.length) ∧
    (∀ off, Intermediate.unpack buffer = .ok off → offsetInv off buffer.length) ∧
    (∀ crc seq off seq2, Full.unpack crc seq buffer = .ok (off, seq2) →
      offsetInv off buffer.length) ∧
    (∀ decrypt inner off, (decrypt buffer).length = buffer.length →
      (∀ b o, inner b = .ok o → offsetInv o b.length) →
      Obfuscated.unpack decrypt inner buffer = .ok off → offsetInv off buffer.length) := by
  refine ⟨?_, ?_, ?_, ?_⟩
  · intro off h
    simp only [Abridged.unpack] at h
    split_ifs at h
    all_goals injection h with h'
    all_goals subst h'
    all_goals exact ⟨Nat.zero_le _, by dsimp only; omega, by dsimp only; omega⟩
  · intro off h
    simp only [Intermediate.unpack] at h
    split_ifs at h
    all_goals injection h with h'
    all_goals subst h'
    all_goals exact ⟨Nat.zero_le _, by dsimp only; omega, by dsimp only; omega⟩
  · intro crc seq off seq2 h
    simp only [Full.unpack] at h
    split_ifs at h
    all_goals injection h with h'
    all_goals injection h' with ha hb
    all_goals subst ha
    all_goals exact ⟨Nat.zero_le _, by dsimp only; omega, by dsimp only; omega⟩
  · intro decrypt inner off hdec hinner h
    simp only [Obfuscated.unpack] at h
    have h2 := hinner (decrypt buffer) off h
    rw [hdec] at h2
    exact h2

theorem unpack_offset_invariant_witness :
    offsetInv ⟨1, 5, 5⟩ (([1, 9, 9, 9, 9] : List Nat).length) ∧
    offsetInv ⟨4, 8, 8⟩ (([4, 0, 0, 0, 170, 187, 204, 221] : List Nat).length) ∧
    offsetInv ⟨8, 12, 16⟩
      (([16, 0, 0, 0, 0, 0, 0, 0, 1, 2, 3, 4, 0, 0, 0, 0] : List Nat).length) ∧
    offsetInv ⟨4, 8, 8⟩ (([4, 0, 0, 0, 170, 187, 204, 221] : List Nat).length) := by
  refine ⟨?_, ?_, ?_, ?_⟩
  · exact (unpack_offset_invariant [1, 9, 9, 9, 9]).1 ⟨1, 5, 5⟩ (by rfl)
  · exact (unpack_offset_invariant [4, 0, 0, 0, 170, 187, 204, 221]).2.1 ⟨4, 8, 8⟩ (by rfl)
  · exact (unpack_offset_invariant [16, 0, 0, 0, 0, 0, 0, 0, 1, 2, 3, 4, 0, 0, 0, 0]).2.2.1
      (fun _ => 0) 0 ⟨8, 12, 16⟩ 1 (by rfl)
  · exact (unpack_offset_invariant [4, 0, 0, 0, 170, 187, 204, 221]).2.2.2
      (fun l => l) Intermediate.unpack ⟨4, 8, 8⟩ rfl
      (fun b o hb => (unpack_offset_invariant b).2.1 o hb) (by rfl)

/-- C10: for every payload `x` whose length is a multiple of 4 and `< 2 ^ 24`,
packing `x` and unpacking the packed buffer succeeds, yields a data range
slicing out exactly `x`, and a next offset consuming exactly the packed frame
length, for the Abridged, Intermediate, and Full transports (Full for any
uninterpreted CRC32 and any matching pair of sequence counters). -/
theorem pack_unpack_roundtrip (x : List Nat) (crc : List Nat → Nat) (seq : Nat)
    (h4 : x.length % 4 = 0) (hlt : x.length < 2 ^ 24) :
    roundtripOk Abridged.pack Abridged.unpack x ∧
    roundtripOk Intermediate.pack Intermediate.unpack x ∧
    roundtripOk (fun b => (Full.pack crc seq b).map Prod.fst)
      (fun b => (Full.unpack crc seq b).map Prod.fst) x := by
  refine ⟨?_, ?_, ?_⟩
  · by_cases hc : x.length / 4 < 127
    · refine ⟨x.length / 4 :: x, ⟨1, 1 + x.length, 1 + x.length⟩, ?_, ?_, ?_, ?_⟩
      · simp [Abridged.pack, h4, hc]
      · have hlen4 : byteAt (x.length / 4 :: x) 0 * 4 = x.length := by
          show x.length / 4 * 4 = x.length
          omega
        simp only [Abridged.unpack, hlen4, List.length_cons]
        rw [if_neg (by omega), if_pos (show byteAt (x.length / 4 :: x) 0 < 127 from hc),
          if_neg (by omega)]
      · show x.take (1 + x.length - 1) = x
        have e : 1 + x.length - 1 = x.length := by omega
        rw [e, List.take_length]
      · show 1 + x.length = x.length + 1
        omega
    · refine ⟨127 :: (le3 (x.length / 4) ++ x), ⟨4, 4 + x.length, 4 + x.length⟩, ?_, ?_, ?_, ?_⟩
      · simp [Abridged.pack, h4, hc]
      · have hrd : rd3At (127 :: (le3 (x.length / 4) ++ x)) 1 * 4 = x.length := by
          rw [rd3At_cons_le3 127 (x.length / 4) x (by omega)]
          omega
        have hbl : (127 :: (le3 (x.length / 4) ++ x)).length = 4 + x.length := by
          simp [le3]
          omega
        simp only [Abridged.unpack, hrd, hbl]
        rw [if_neg (by omega),
          if_neg (show ¬ byteAt (127 :: (le3 (x.length / 4) ++ x)) 0 < 127 by
            show ¬ (127 : Nat) < 127
            omega),
          if_neg (by omega), if_neg (by omega)]
      · show x.take (4 + x.length - 4) = x
        have e : 4 + x.length - 4 = x.length := by omega
        rw [e, List.take_length]
      · show 4 + x.length = x.length + 1 + 1 + 1 + 1
        omega
  · refine ⟨le4 x.length ++ x, ⟨4, 4 + x.length, 4 + x.length⟩, ?_, ?_, ?_, ?_⟩
    · simp [Intermediate.pack, h4]
    · have hrd : rd4At (le4 x.length ++ x) 0 = x.length :=
        rd4At_le4_append x.length x (by omega)
      have hbl : (le4 x.length ++ x).length = 4 + x.length := by
        simp [le4]
        omega
      simp only [Intermediate.unpack, hrd, hbl]
      rw [if_neg (by omega),
        if_neg (by rw [asI32_nonneg _ (by omega)]; omega),
        if_neg (by omega)]
    · show x.take (4 + x.length - 4) = x
      have e : 4 + x.length - 4 = x.length := by omega
      rw [e, List.take_length]
    · show 4 + x.length = (le4 x.length ++ x).length
      simp [le4]
      omega
  · refine ⟨(le4 (x.length + 12) ++ (le4 (seq % 2 ^ 32) ++ x)) ++
        le4 (crc (le4 (x.length + 12) ++ (le4 (seq % 2 ^ 32) ++ x)) % 2 ^ 32),
      ⟨8, x.length + 8, x.length + 12⟩, ?_, ?_, ?_, ?_⟩
    · simp only [Full.pack]
      rw [if_neg (by omega)]
      rfl
    · have hbodylen : (le4 (x.length + 12) ++ (le4 (seq % 2 ^ 32) ++ x)).length =
          x.length + 8 := by
        simp [le4]
      have hbl : ((le4 (x.length + 12) ++ (le4 (seq % 2 ^ 32) ++ x)) ++
          le4 (crc (le4 (x.length + 12) ++ (le4 (seq % 2 ^ 32) ++ x)) % 2 ^ 32)).length =
          x.length + 12 := by
        simp [le4]
      have hrd0 : rd4At ((le4 (x.length + 12) ++ (le4 (seq % 2 ^ 32) ++ x)) ++
          le4 (crc (le4 (x.length + 12) ++ (le4 (seq % 2 ^ 32) ++ x)) % 2 ^ 32)) 0 =
          x.length + 12 := by
        show (x.length + 12) % 256 + 256 * ((x.length + 12) / 256 % 256) +
          65536 * ((x.length + 12) / 65536 % 256) +
          16777216 * ((x.length + 12) / 16777216 % 256) = x.length + 12
        omega
      have hrd4 : rd4At ((le4 (x.length + 12) ++ (le4 (seq % 2 ^ 32) ++ x)) ++
          le4 (crc (le4 (x.length + 12) ++ (le4 (seq % 2 ^ 32) ++ x)) % 2 ^ 32)) 4 =
          seq % 2 ^ 32 := by
        show seq % 2 ^ 32 % 256 + 256 * (seq % 2 ^ 32 / 256 % 256) +
          65536 * (seq % 2 ^ 32 / 65536 % 256) +
          16777216 * (seq % 2 ^ 32 / 16777216 % 256) = seq % 2 ^ 32
        omega
      have hrdC : rd4At ((le4 (x.length + 12) ++ (le4 (seq % 2 ^ 32) ++ x)) ++
          le4 (crc (le4 (x.length + 12) ++ (le4 (seq % 2 ^ 32) ++ x)) % 2 ^ 32))
          (x.length + 8) =
          crc (le4 (x.length + 12) ++ (le4 (seq % 2 ^ 32) ++ x)) % 2 ^ 32 := by
        have h0 := rd4At_append (le4 (x.length + 12) ++ (le4 (seq % 2 ^ 32) ++ x))
          (le4 (crc (le4 (x.length + 12) ++ (le4 (seq % 2 ^ 32) ++ x)) % 2 ^ 32)) 0
        rw [hbodylen] at h0
        simpa using h0.trans (rd4At_le4_self _ (by omega))
      have h84 : x.length + 12 - 4 = x.length + 8 := by omega
      have hunp : Full.unpack crc seq
          ((le4 (x.length + 12) ++ (le4 (seq % 2 ^ 32) ++ x)) ++
            le4 (crc (le4 (x.length + 12) ++ (le4 (seq % 2 ^ 32) ++ x)) % 2 ^ 32)) =
          .ok (⟨8, x.length + 8, x.length + 12⟩, seq + 1) := by
        simp only [Full.unpack, hrd0, hrd4, hbl, h84, hrdC, List.take_left' hbodylen]
        rw [if_neg (by omega),
          if_neg (by rw [asI32_nonneg _ (by omega)]; omega),
          if_neg (by omega), if_neg (by omega), if_neg (by omega)]
      show (Full.unpack crc seq _).map Prod.fst = _
      rw [hunp]
      rfl
    · show (x ++ le4 (crc (le4 (x.length + 12) ++ (le4 (seq % 2 ^ 32) ++ x)) % 2 ^ 32)).take
        (x.length + 8 - 8) = x
      have e : x.length + 8 - 8 = x.length := by omega
      rw [e]
      exact List.take_left' rfl
    · show x.length + 12 = ((le4 (x.length + 12) ++ (le4 (seq % 2 ^ 32) ++ x)) ++
        le4 (crc (le4 (x.length + 12) ++ (le4 (seq % 2 ^ 32) ++ x)) % 2 ^ 32)).length
      simp [le4]

theorem pack_unpack_roundtrip_witness :
    (([1, 2, 3, 4] : List Nat).length % 4 = 0) ∧
    (([1, 2, 3, 4] : List Nat).length < 2 ^ 24) ∧
    (roundtripOk Abridged.pack Abridged.unpack [1, 2, 3, 4] ∧
      roundtripOk Intermediate.pack Intermediate.unpack [1, 2, 3, 4] ∧
      roundtripOk (fun b => (Full.pack (fun l => l.length) 5 b).map Prod.fst)
        (fun b => (Full.unpack (fun l => l.length) 5 b).map Prod.fst) [1, 2, 3, 4]) :=
  ⟨by decide, by decide,
    pack_unpack_roundtrip [1, 2, 3, 4] (fun l => l.length) 5 (by decide) (by decide)⟩

end Grammers
